import Mathlib

/-!
Verification development for the fuse-test repository: a read-only FUSE
filesystem backed by an NFS directory with an SSD cache layer.

The Go source is shallowly embedded:
* paths and cache keys are lists of characters (`Path`), byte payloads are
  lists of naturals (`Data`);
* each on-disk directory of cached files (the `ssd` directory) is an
  association list from flattened key to payload;
* Go maps `map[string]bool` used as membership sets are lists of keys with
  idempotent insertion (`insertKey`) and key deletion (`deleteKey`);
* fallible operations return `Except`.
-/

set_option autoImplicit false

namespace FuseTest

/-- Hierarchical relative paths and flattened cache keys, as the sequences of
characters of the Go strings. -/
abbrev Path := List Char

/-- File payloads: sequences of bytes. -/
abbrev Data := List Nat

/-- Character-level substitution performed by `flattenDirPath` (util.go):
the hierarchical separator is replaced by the reserved marker. -/
def flattenChar (c : Char) : Char := if c = '/' then '$' else c

/-- Embedding of `flattenDirPath` (util.go): Go's
`strings.ReplaceAll(path, "/", "$")`, which, the pattern being the single
character `/`, is the character-wise map of `flattenChar`. -/
def flattenDirPath (p : Path) : Path := p.map flattenChar

theorem flattenChar_inj {a b : Char} (ha : a ≠ '$') (hb : b ≠ '$')
    (h : flattenChar a = flattenChar b) : a = b := by
  by_cases h1 : a = '/'
  · by_cases h2 : b = '/'
    · rw [h1, h2]
    · exfalso
      rw [flattenChar, if_pos h1, flattenChar, if_neg h2] at h
      exact hb h.symm
  · by_cases h2 : b = '/'
    · exfalso
      rw [flattenChar, if_neg h1, flattenChar, if_pos h2] at h
      exact ha h
    · rw [flattenChar, if_neg h1, flattenChar, if_neg h2] at h
      exact h

/-- C7: the path-flattening function is injective over paths containing no
occurrence of the reserved marker character `$` (a path's segments contain no
marker exactly when the whole path contains none, the separator being `/`). -/
theorem c7_flatten_injective_no_marker :
    ∀ (p q : Path), '$' ∉ p → '$' ∉ q →
      flattenDirPath p = flattenDirPath q → p = q := by
  intro p
  induction p with
  | nil =>
    intro q _ _ h
    cases q with
    | nil => rfl
    | cons b bs => simp [flattenDirPath] at h
  | cons a as ih =>
    intro q hp hq h
    cases q with
    | nil => simp [flattenDirPath] at h
    | cons b bs =>
      simp only [flattenDirPath, List.map_cons, List.cons.injEq] at h
      have ha : a ≠ '$' := by simp at hp; exact fun e => hp.1 e.symm
      have hb : b ≠ '$' := by simp at hq; exact fun e => hq.1 e.symm
      have has : '$' ∉ as := by simp at hp; exact fun m => hp.2 m
      have hbs : '$' ∉ bs := by simp at hq; exact fun m => hq.2 m
      have hab := flattenChar_inj ha hb h.1
      have htl := ih bs has hbs h.2
      rw [hab, htl]

/-- Witness for C7 at concrete inputs: two marker-free paths with equal
flattenings are equal. -/
theorem c7_flatten_injective_no_marker_witness :
    "a/b.txt".toList = "a/b.txt".toList :=
  c7_flatten_injective_no_marker "a/b.txt".toList "a/b.txt".toList
    (by decide) (by decide) rfl

/-! ### On-disk storage and set-like maps

The `ssd` directory holding cached payloads is an association list from
flattened key to payload; `diskWrite` overwrites (as `os.WriteFile` does) and
`diskLookup` returns `none` when the file does not exist. The Go maps
`map[string]bool` are lists of keys: `insertKey` is the idempotent
`m[k] = true`, `deleteKey` is `delete(m, k)`. -/

/-- Lookup of a file on a disk directory; `none` models `os.IsNotExist`. -/
def diskLookup (disk : List (Path × Data)) (k : Path) : Option Data :=
  match disk with
  | [] => none
  | (k', d) :: rest => if k' = k then some d else diskLookup rest k

/-- Overwriting write of a file to a disk directory (`os.WriteFile`). -/
def diskWrite (disk : List (Path × Data)) (k : Path) (d : Data) :
    List (Path × Data) :=
  match disk with
  | [] => [(k, d)]
  | (k', d') :: rest =>
    if k' = k then (k, d) :: rest else (k', d') :: diskWrite rest k d

theorem diskLookup_diskWrite_self (disk : List (Path × Data)) (k : Path)
    (d : Data) : diskLookup (diskWrite disk k d) k = some d := by
  induction disk with
  | nil => simp [diskWrite, diskLookup]
  | cons hd tl ih =>
    obtain ⟨k', d'⟩ := hd
    by_cases h : k' = k
    · simp [diskWrite, diskLookup, h]
    · simp [diskWrite, diskLookup, h, ih]

/-- Idempotent insertion into a membership set (`m[k] = true` on a Go map). -/
def insertKey (ks : List Path) (k : Path) : List Path :=
  if k ∈ ks then ks else ks ++ [k]

/-- Deletion from a membership set (`delete(m, k)` on a Go map). -/
def deleteKey (ks : List Path) (k : Path) : List Path :=
  ks.filter (fun x => decide (x ≠ k))

theorem not_mem_deleteKey_of_not_mem {ks : List Path} {k x : Path}
    (h : x ∉ ks) : x ∉ deleteKey ks k := by
  intro hmem
  exact h (List.mem_of_mem_filter hmem)

/-! ### Cache layer (cache.go)

The `Cache` interface's `Get` returns the payload or an error
(`ErrNotFoundCache` or something else); `Put` returns `ErrWontCache`, some
other error, or success. In the pure embedding a disk write always succeeds,
so the only errors that arise are the two sentinel values. -/

/-- Sentinel cache errors of cache.go: `ErrNotFoundCache` and
`ErrWontCache`. -/
inductive CacheErr where
  | notFound
  | wontCache
  deriving DecidableEq, Repr

/-- State of `defaultCache`: just the files written under `ssdBasePath`. -/
structure DefaultCache where
  ssd : List (Path × Data)
  deriving Repr

/-- Embedding of `defaultCache.Get`: read the flattened key from the SSD
directory; absence is `ErrNotFoundCache`. -/
def defaultCacheGet (c : DefaultCache) (path : Path) : Except CacheErr Data :=
  match diskLookup c.ssd (flattenDirPath path) with
  | some d => Except.ok d
  | none => Except.error CacheErr.notFound

/-- Embedding of `defaultCache.Put`: write the flattened key to the SSD
directory with the file's permission bits; always succeeds. -/
def defaultCachePut (c : DefaultCache) (path : Path) (data : Data)
    (_mode : Nat) : DefaultCache :=
  ⟨diskWrite c.ssd (flattenDirPath path) data⟩

/-- State of `sizeLimitedCache`: byte budget, running admitted-byte total,
SSD directory and the `isPresent` membership set. -/
structure SizeLimitedCache where
  byteLimit : Nat
  byteCount : Nat
  ssd : List (Path × Data)
  isPresent : List Path
  deriving Repr

/-- Embedding of `NewSizeLimitedCache`. -/
def NewSizeLimitedCache (byteLimit : Nat) : SizeLimitedCache :=
  ⟨byteLimit, 0, [], []⟩

/-- Embedding of `sizeLimitedCache.Get`: a key absent from `isPresent` is
`ErrNotFoundCache` before the disk is consulted. -/
def sizeLimitedGet (s : SizeLimitedCache) (path : Path) :
    Except CacheErr Data :=
  let flatPath := flattenDirPath path
  if flatPath ∈ s.isPresent then
    match diskLookup s.ssd flatPath with
    | some d => Except.ok d
    | none => Except.error CacheErr.notFound
  else Except.error CacheErr.notFound

/-- Embedding of `sizeLimitedCache.Put`: refuse with `ErrWontCache` when
admission would exceed the budget, before anything is written; otherwise
write through, record membership and add to the running total. -/
def sizeLimitedPut (s : SizeLimitedCache) (path : Path) (data : Data)
    (_mode : Nat) : Except CacheErr Unit × SizeLimitedCache :=
  if s.byteCount + data.length > s.byteLimit then
    (Except.error CacheErr.wontCache, s)
  else
    let flatPath := flattenDirPath path
    (Except.ok (),
      { s with
        ssd := diskWrite s.ssd flatPath data
        isPresent := insertKey s.isPresent flatPath
        byteCount := s.byteCount + data.length })

/-- State of `lruCache`: fixed capacity, SSD directory, `isPresent`
membership set and the recency `queue` (most recently used at the back). -/
structure LruCache where
  capacity : Nat
  ssd : List (Path × Data)
  isPresent : List Path
  queue : List Path
  deriving Repr

/-- Embedding of `NewLRUCache` (cache.go): constructing with capacity zero
hits `log.Fatalf` and aborts the process, modelled as `none`; otherwise the
cache starts with empty membership and queue. -/
def NewLRUCache (capacity : Nat) : Option LruCache :=
  if capacity = 0 then none
  else some ⟨capacity, [], [], []⟩

/-- Removal of the first occurrence of a key, as `lruCache.promote` splices
out the key at `foundIdx` (no removal when the key is absent). -/
def removeFirst (key : Path) : List Path → List Path
  | [] => []
  | k :: ks => if k = key then ks else k :: removeFirst key ks

/-- Embedding of `lruCache.promote`: move (or add) the key to the back of the
queue; when the queue then exceeds capacity, drop and return the front key. -/
def promote (capacity : Nat) (key : Path) (queue : List Path) :
    List Path × Option Path :=
  let q1 := removeFirst key queue ++ [key]
  if capacity < q1.length then (q1.drop 1, q1.head?) else (q1, none)

/-- Embedding of `lruCache.Get`: a key absent from `isPresent` is
`ErrNotFoundCache`; otherwise the key is promoted (any eviction result
ignored) and the payload read from disk. -/
def lruGet (lru : LruCache) (path : Path) : Except CacheErr Data × LruCache :=
  let flatPath := flattenDirPath path
  if flatPath ∈ lru.isPresent then
    let lru' := { lru with queue := (promote lru.capacity flatPath lru.queue).1 }
    match diskLookup lru'.ssd flatPath with
    | some d => (Except.ok d, lru')
    | none => (Except.error CacheErr.notFound, lru')
  else (Except.error CacheErr.notFound, lru)

/-- Embedding of `lruCache.Put`: write through to disk, promote the key, and
then either delete the evicted key from `isPresent` or (only when nothing was
evicted) record the new key in `isPresent`. -/
def lruPut (lru : LruCache) (path : Path) (data : Data) (_mode : Nat) :
    Except CacheErr Unit × LruCache :=
  let flatPath := flattenDirPath path
  let ssd' := diskWrite lru.ssd flatPath data
  match promote lru.capacity flatPath lru.queue with
  | (q', some evicted) =>
    (Except.ok (),
      { lru with ssd := ssd', queue := q',
                 isPresent := deleteKey lru.isPresent evicted })
  | (q', none) =>
    (Except.ok (),
      { lru with ssd := ssd', queue := q',
                 isPresent := insertKey lru.isPresent flatPath })

theorem removeFirst_of_not_mem {k : Path} {ks : List Path} (h : k ∉ ks) :
    removeFirst k ks = ks := by
  induction ks with
  | nil => rfl
  | cons x xs ih =>
    simp only [List.mem_cons, not_or] at h
    have hx : ¬ x = k := fun e => h.1 e.symm
    simp [removeFirst, hx, ih h.2]

theorem promote_full_not_mem {capacity : Nat} {k : Path} {q : List Path}
    (hq : q.length = capacity) (hk : k ∉ q) :
    promote capacity k q = ((q ++ [k]).drop 1, (q ++ [k]).head?) := by
  unfold promote
  rw [removeFirst_of_not_mem hk]
  have hlen : (q ++ [k]).length = capacity + 1 := by simp [hq]
  rw [if_pos (by omega)]

/-! ### LRU scenario evaluations -/

/-- LRU capacity 2 after Put A, Put B, Put C (payloads 1, 2, 3). -/
def lruAfterABC : LruCache :=
  (lruPut (lruPut (lruPut ⟨2, [], [], []⟩ ['A'] [1] 0).2 ['B'] [2] 0).2
    ['C'] [3] 0).2

/-- State of `lruAfterABC` after Get B and then Put D (payload 4). -/
def lruAfterGetBPutD : LruCache :=
  (lruPut (lruGet lruAfterABC ['B']).2 ['D'] [4] 0).2

/-- C2 (evaluation at the failing input): in the capacity-2 LRU scenario
Put A, Put B, Put C the eviction queue is `[B, C]` as the claim's membership
states, but the `isPresent` membership index is only `{B}` — the just-put key
`C` was never recorded (Put only inserts when no eviction occurred) — so a Get
of C misses; likewise after Get B, Put D the queue is `[B, D]` but the index is
still `{B}` and a Get of D misses. -/
theorem c2_lru_scenario_membership_divergence :
    lruAfterABC.queue = [['B'], ['C']] ∧
    lruAfterABC.isPresent = [['B']] ∧
    (lruGet lruAfterABC ['C']).1 = Except.error CacheErr.notFound ∧
    lruAfterGetBPutD.queue = [['B'], ['D']] ∧
    lruAfterGetBPutD.isPresent = [['B']] ∧
    (lruGet lruAfterGetBPutD ['D']).1 = Except.error CacheErr.notFound :=
  ⟨rfl, rfl, rfl, rfl, rfl, rfl⟩

/-- LRU capacity 1 after Put A (2-byte payload) and Put B, which evicts A. -/
def lruAfterEvictA : LruCache :=
  (lruPut (lruPut ⟨1, [], [], []⟩ ['A'] [1, 2] 0).2 ['B'] [3] 0).2

/-- C3 (evaluation at the failing input): in a capacity-1 LRU, Put A then
Put B evicts A — A leaves the queue and the membership index — yet A's
on-disk payload is still present afterwards: `lruCache` never deletes the
evicted file from the SSD directory. -/
theorem c3_evicted_payload_not_deleted :
    lruAfterEvictA.queue = [['B']] ∧
    ['A'] ∉ lruAfterEvictA.isPresent ∧
    diskLookup lruAfterEvictA.ssd ['A'] = some [1, 2] :=
  ⟨rfl, by decide, rfl⟩

/-- LRU capacity 1 after Put X and Put Y (Y's put evicts X). -/
def lruAfterXY : LruCache :=
  (lruPut (lruPut ⟨1, [], [], []⟩ ['X'] [1] 0).2 ['Y'] [2] 0).2

/-- C4 (evaluation at the failing input): after Put X, Put Y on a capacity-1
LRU the eviction queue has length 1 but the membership set is empty — the
sizes differ because the eviction branch of Put deletes the evicted key
without recording the new one. -/
theorem c4_membership_size_ne_queue_length :
    lruAfterXY.queue.length = 1 ∧ lruAfterXY.isPresent.length = 0 :=
  ⟨rfl, rfl⟩

/-- C9: constructing the LRU cache with capacity zero fails fast at startup
(`log.Fatalf`, modelled as `none`); any nonzero capacity yields a cache
instance with that capacity and empty membership and queue. -/
theorem c9_zero_capacity_fails_fast :
    NewLRUCache 0 = none ∧
    ∀ c : Nat, c ≠ 0 → ∃ cache, NewLRUCache c = some cache ∧
      cache.capacity = c ∧ cache.isPresent = [] ∧ cache.queue = [] :=
  ⟨rfl, fun c hc =>
    ⟨⟨c, [], [], []⟩, by simp [NewLRUCache, hc], rfl, rfl, rfl⟩⟩

/-- Witness for C9: capacity 2 yields a working empty cache. -/
theorem c9_zero_capacity_fails_fast_witness :
    ∃ cache, NewLRUCache 2 = some cache ∧
      cache.capacity = 2 ∧ cache.isPresent = [] ∧ cache.queue = [] :=
  c9_zero_capacity_fails_fast.2 2 (by decide)

/-- C10: for an LRU cache holding exactly its capacity of entries, a Put of a
key not currently present returns success, the new key is not recorded in the
membership index — only the evicted key is deleted from it — and an
immediately following Get of that key returns NotFound. -/
theorem c10_put_at_capacity_loses_new_key (lru : LruCache) (k : Path)
    (d : Data) (m : Nat)
    (hq : lru.queue.length = lru.capacity)
    (hqk : flattenDirPath k ∉ lru.queue)
    (hpk : flattenDirPath k ∉ lru.isPresent) :
    (lruPut lru k d m).1 = Except.ok () ∧
    flattenDirPath k ∉ ((lruPut lru k d m).2).isPresent ∧
    (lruGet ((lruPut lru k d m).2) k).1 = Except.error CacheErr.notFound ∧
    ∃ e, ((lruPut lru k d m).2).isPresent = deleteKey lru.isPresent e := by
  have hne : lru.queue ++ [flattenDirPath k] ≠ [] := by simp
  obtain ⟨e, es, he⟩ := List.exists_cons_of_ne_nil hne
  have hpr : promote lru.capacity (flattenDirPath k) lru.queue =
      (es, some e) := by
    rw [promote_full_not_mem hq hqk, he]
    rfl
  have hput : lruPut lru k d m =
      (Except.ok (),
        { lru with ssd := diskWrite lru.ssd (flattenDirPath k) d,
                   queue := es,
                   isPresent := deleteKey lru.isPresent e }) := by
    unfold lruPut
    simp only [hpr]
  have hnotmem : flattenDirPath k ∉ deleteKey lru.isPresent e :=
    not_mem_deleteKey_of_not_mem hpk
  refine ⟨by rw [hput], by rw [hput]; exact hnotmem, ?_, ⟨e, by rw [hput]⟩⟩
  rw [hput]
  unfold lruGet
  simp only [if_neg hnotmem]

/-- Witness for C10: a concrete capacity-2 cache holding A and B; putting C
succeeds, C is missing from the membership index, and a Get of C misses. -/
theorem c10_put_at_capacity_loses_new_key_witness :
    (lruPut ⟨2, [(['A'], [1]), (['B'], [2])], [['A'], ['B']],
        [['A'], ['B']]⟩ ['C'] [3] 0).1 = Except.ok () ∧
    flattenDirPath ['C'] ∉
      ((lruPut ⟨2, [(['A'], [1]), (['B'], [2])], [['A'], ['B']],
        [['A'], ['B']]⟩ ['C'] [3] 0).2).isPresent ∧
    (lruGet ((lruPut ⟨2, [(['A'], [1]), (['B'], [2])], [['A'], ['B']],
        [['A'], ['B']]⟩ ['C'] [3] 0).2) ['C']).1 =
      Except.error CacheErr.notFound ∧
    ∃ e, ((lruPut ⟨2, [(['A'], [1]), (['B'], [2])], [['A'], ['B']],
        [['A'], ['B']]⟩ ['C'] [3] 0).2).isPresent =
      deleteKey [['A'], ['B']] e :=
  c10_put_at_capacity_loses_new_key
    ⟨2, [(['A'], [1]), (['B'], [2])], [['A'], ['B']], [['A'], ['B']]⟩
    ['C'] [3] 0 (by decide) (by decide) (by decide)

/-! ### Size-bounded cache accounting (C5) -/

/-- Run a sequence of Put operations against the size-bounded cache. -/
def runSizePuts (s : SizeLimitedCache) : List (Path × Data) → SizeLimitedCache
  | [] => s
  | (k, d) :: rest => runSizePuts (sizeLimitedPut s k d 0).2 rest

/-- Total byte size of the payloads accepted along a sequence of Puts. -/
def acceptedBytes (s : SizeLimitedCache) : List (Path × Data) → Nat
  | [] => 0
  | (k, d) :: rest =>
    match sizeLimitedPut s k d 0 with
    | (Except.ok _, s') => d.length + acceptedBytes s' rest
    | (Except.error _, s') => acceptedBytes s' rest

theorem sizeLimitedPut_refused {s : SizeLimitedCache} {k : Path} {d : Data}
    {m : Nat} (h : s.byteCount + d.length > s.byteLimit) :
    sizeLimitedPut s k d m = (Except.error CacheErr.wontCache, s) := by
  unfold sizeLimitedPut
  rw [if_pos h]

theorem sizeLimitedPut_accepted {s : SizeLimitedCache} {k : Path} {d : Data}
    {m : Nat} (h : ¬ s.byteCount + d.length > s.byteLimit) :
    sizeLimitedPut s k d m =
      (Except.ok (),
        { s with ssd := diskWrite s.ssd (flattenDirPath k) d,
                 isPresent := insertKey s.isPresent (flattenDirPath k),
                 byteCount := s.byteCount + d.length }) := by
  unfold sizeLimitedPut
  rw [if_neg h]

theorem runSizePuts_byteCount :
    ∀ (ops : List (Path × Data)) (s : SizeLimitedCache),
      (runSizePuts s ops).byteCount = s.byteCount + acceptedBytes s ops := by
  intro ops
  induction ops with
  | nil => intro s; simp [runSizePuts, acceptedBytes]
  | cons p rest ih =>
    intro s
    obtain ⟨k, d⟩ := p
    by_cases h : s.byteCount + d.length > s.byteLimit
    · rw [runSizePuts, acceptedBytes, sizeLimitedPut_refused h]
      exact ih s
    · rw [runSizePuts, acceptedBytes, sizeLimitedPut_accepted h]
      have := ih { s with ssd := diskWrite s.ssd (flattenDirPath k) d,
                          isPresent := insertKey s.isPresent (flattenDirPath k),
                          byteCount := s.byteCount + d.length }
      simp only at this ⊢
      omega

theorem sizeLimitedPut_byteLimit {s : SizeLimitedCache} {k : Path} {d : Data}
    {m : Nat} : ((sizeLimitedPut s k d m).2).byteLimit = s.byteLimit := by
  by_cases h : s.byteCount + d.length > s.byteLimit
  · rw [sizeLimitedPut_refused h]
  · rw [sizeLimitedPut_accepted h]

theorem sizeLimitedPut_within_budget {s : SizeLimitedCache} {k : Path}
    {d : Data} {m : Nat} (h : s.byteCount ≤ s.byteLimit) :
    ((sizeLimitedPut s k d m).2).byteCount ≤ s.byteLimit := by
  by_cases hb : s.byteCount + d.length > s.byteLimit
  · rw [sizeLimitedPut_refused hb]
    exact h
  · rw [sizeLimitedPut_accepted hb]
    simp only
    omega

theorem runSizePuts_within_budget :
    ∀ (ops : List (Path × Data)) (s : SizeLimitedCache),
      s.byteCount ≤ s.byteLimit →
      (runSizePuts s ops).byteCount ≤ s.byteLimit := by
  intro ops
  induction ops with
  | nil => intro s h; simpa [runSizePuts] using h
  | cons p rest ih =>
    intro s h
    obtain ⟨k, d⟩ := p
    rw [runSizePuts]
    have hlim : ((sizeLimitedPut s k d 0).2).byteLimit = s.byteLimit :=
      sizeLimitedPut_byteLimit
    have hcnt : ((sizeLimitedPut s k d 0).2).byteCount ≤ s.byteLimit :=
      sizeLimitedPut_within_budget h
    have := ih ((sizeLimitedPut s k d 0).2) (by rw [hlim]; exact hcnt)
    rwa [hlim] at this

/-- Payloads of Scenario B: 72, 54 and 47 zero bytes. -/
def bytes72 : Data := List.replicate 72 0
/-- See `bytes72`. -/
def bytes54 : Data := List.replicate 54 0
/-- See `bytes72`. -/
def bytes47 : Data := List.replicate 47 0

/-- C5: for the size-bounded cache, (1) the running total equals the sum of
the accepted payload sizes, (2) it never exceeds the configured budget,
(3) a put whose admission would exceed the budget is refused outright with no
state change — nothing written, no membership or total update —, (4) the
running total never decreases across a Put, and (5) Scenario B: with a 64-byte
budget, a 72-byte put is Refused leaving the cache untouched; a 54-byte put is
accepted; a following 47-byte put is Refused; and the 72-byte file is never a
later hit. -/
theorem c5_size_bounded_budget :
    (∀ (ops : List (Path × Data)) (s : SizeLimitedCache),
      (runSizePuts s ops).byteCount = s.byteCount + acceptedBytes s ops) ∧
    (∀ (ops : List (Path × Data)) (s : SizeLimitedCache),
      s.byteCount ≤ s.byteLimit →
      (runSizePuts s ops).byteCount ≤ s.byteLimit) ∧
    (∀ (s : SizeLimitedCache) (k : Path) (d : Data) (m : Nat),
      s.byteCount + d.length > s.byteLimit →
      sizeLimitedPut s k d m = (Except.error CacheErr.wontCache, s)) ∧
    (∀ (s : SizeLimitedCache) (k : Path) (d : Data) (m : Nat),
      s.byteCount ≤ ((sizeLimitedPut s k d m).2).byteCount) ∧
    ((sizeLimitedPut (NewSizeLimitedCache 64) ['a'] bytes72 0).1 =
        Except.error CacheErr.wontCache ∧
      (sizeLimitedPut (NewSizeLimitedCache 64) ['a'] bytes72 0).2 =
        NewSizeLimitedCache 64 ∧
      (sizeLimitedPut (NewSizeLimitedCache 64) ['b'] bytes54 0).1 =
        Except.ok () ∧
      (sizeLimitedPut
        ((sizeLimitedPut (NewSizeLimitedCache 64) ['b'] bytes54 0).2)
        ['c'] bytes47 0).1 = Except.error CacheErr.wontCache ∧
      sizeLimitedGet
        ((sizeLimitedPut
          ((sizeLimitedPut (NewSizeLimitedCache 64) ['b'] bytes54 0).2)
          ['c'] bytes47 0).2) ['a'] = Except.error CacheErr.notFound) := by
  refine ⟨runSizePuts_byteCount, runSizePuts_within_budget,
    ?_, ?_, rfl, rfl, rfl, rfl, rfl⟩
  · intro s k d m h
    exact sizeLimitedPut_refused h
  · intro s k d m
    by_cases h : s.byteCount + d.length > s.byteLimit
    · rw [sizeLimitedPut_refused h]
    · rw [sizeLimitedPut_accepted h]
      simp only
      omega

/-- Witness for C5 at concrete inputs: the over-budget 72-byte put against
the fresh 64-byte cache is refused with the state unchanged, and an accepted
Put never lowers the total. -/
theorem c5_size_bounded_budget_witness :
    sizeLimitedPut (NewSizeLimitedCache 64) ['a'] bytes72 0 =
      (Except.error CacheErr.wontCache, NewSizeLimitedCache 64) ∧
    (NewSizeLimitedCache 64).byteCount ≤
      ((sizeLimitedPut (NewSizeLimitedCache 64) ['b'] bytes54 0).2).byteCount :=
  ⟨c5_size_bounded_budget.2.2.1 (NewSizeLimitedCache 64) ['a'] bytes72 0
      (by decide),
    c5_size_bounded_budget.2.2.2.1 (NewSizeLimitedCache 64) ['b'] bytes54 0⟩

/-! ### Node layer (node.go): read-through content reads

`fuseFSNode.data` stats the NFS path (NFS is the source of truth), rejects
directories with EISDIR, tries the cache, and on a miss reads NFS (modeled
latency) and writes the cache, ignoring put failures. It appears here twice:
`nodeData` runs it against the pure default-cache system (for C6, with
instrumentation counters), `dataWithOutcomes` takes the result of each
external call as a parameter so that every error path is reachable (for C1).
-/

/-- Errors surfaced by `fuseFSNode.data`: a stat failure propagated as-is,
`syscall.EISDIR` for directories, `syscall.EIO` for backing-store read
failures. -/
inductive FuseErr where
  | statError
  | isDirectory
  | ioError
  deriving DecidableEq, Repr

/-- An entry of the backing NFS tree: a file with payload and permission
bits, or a directory. -/
inductive Entry where
  | file (d : Data) (mode : Nat)
  | dir
  deriving Repr

/-- Lookup in the NFS tree, standing for `os.Stat`/`os.ReadFile` on the
node's absolute NFS path. -/
def nfsLookup : List (Path × Entry) → Path → Option Entry
  | [], _ => none
  | (p, e) :: rest, q => if p = q then some e else nfsLookup rest q

/-- The whole system around a node read with the default cache: the NFS tree,
the cache, and two instrumentation counters — NFS content reads
(`os.ReadFile` on the NFS path, the `NFS_READ` log line) and cache writes. -/
structure FuseFS where
  nfs : List (Path × Entry)
  ssdCache : DefaultCache
  nfsContentReads : Nat
  cacheWrites : Nat
  deriving Repr

/-- Embedding of `fuseFSNode.data` over the default cache: stat from NFS,
EISDIR for directories, cache `Get`, and on a miss an NFS content read
followed by a cache `Put`. -/
def nodeData (fs : FuseFS) (relPath : Path) : Except FuseErr Data × FuseFS :=
  match nfsLookup fs.nfs relPath with
  | none => (Except.error FuseErr.statError, fs)
  | some Entry.dir => (Except.error FuseErr.isDirectory, fs)
  | some (Entry.file d mode) =>
    match defaultCacheGet fs.ssdCache relPath with
    | Except.ok cached => (Except.ok cached, fs)
    | Except.error _ =>
      (Except.ok d,
        { fs with ssdCache := defaultCachePut fs.ssdCache relPath d mode,
                  nfsContentReads := fs.nfsContentReads + 1,
                  cacheWrites := fs.cacheWrites + 1 })

theorem defaultCacheGet_defaultCachePut_self (c : DefaultCache) (p : Path)
    (d : Data) (m : Nat) :
    defaultCacheGet (defaultCachePut c p d m) p = Except.ok d := by
  simp [defaultCacheGet, defaultCachePut, diskLookup_diskWrite_self]

/-- The 12-byte payload of Scenario A. -/
def scenarioABytes : Data := List.replicate 12 7

/-- Scenario A's starting system: NFS holds the 12-byte file `a/b.txt`, the
default cache is empty, counters are zero. -/
def scenarioAFS : FuseFS :=
  ⟨[("a/b.txt".toList, Entry.file scenarioABytes 0o500)], ⟨[]⟩, 0, 0⟩

/-- C6: with the default cache, two consecutive reads of the same file return
identical bytes and the second read performs zero backing-store content
reads; concretely, in Scenario A the first read of the 12-byte `a/b.txt`
returns its 12 bytes with exactly one backing-store access and one cache
write, and the second read returns the same bytes with no further
backing-store access. -/
theorem c6_read_through_idempotent :
    (∀ (fs : FuseFS) (p : Path) (d : Data) (m : Nat),
      nfsLookup fs.nfs p = some (Entry.file d m) →
      (nodeData fs p).1 = (nodeData ((nodeData fs p).2) p).1 ∧
      ((nodeData ((nodeData fs p).2) p).2).nfsContentReads =
        ((nodeData fs p).2).nfsContentReads) ∧
    ((nodeData scenarioAFS "a/b.txt".toList).1 = Except.ok scenarioABytes ∧
      scenarioABytes.length = 12 ∧
      ((nodeData scenarioAFS "a/b.txt".toList).2).nfsContentReads = 1 ∧
      ((nodeData scenarioAFS "a/b.txt".toList).2).cacheWrites = 1 ∧
      (nodeData ((nodeData scenarioAFS "a/b.txt".toList).2)
        "a/b.txt".toList).1 = Except.ok scenarioABytes ∧
      ((nodeData ((nodeData scenarioAFS "a/b.txt".toList).2)
        "a/b.txt".toList).2).nfsContentReads = 1) := by
  constructor
  · intro fs p d m h
    cases hg : defaultCacheGet fs.ssdCache p with
    | ok cached =>
      have h1 : nodeData fs p = (Except.ok cached, fs) := by
        unfold nodeData
        rw [h, hg]
      rw [h1]
      rw [h1]
      exact ⟨rfl, rfl⟩
    | error e =>
      have h1 : nodeData fs p =
          (Except.ok d,
            { fs with
              ssdCache := defaultCachePut fs.ssdCache p d m,
              nfsContentReads := fs.nfsContentReads + 1,
              cacheWrites := fs.cacheWrites + 1 }) := by
        unfold nodeData
        rw [h, hg]
      have h2 : nodeData ((nodeData fs p).2) p =
          (Except.ok d, (nodeData fs p).2) := by
        rw [h1]
        unfold nodeData
        simp only
        rw [h, defaultCacheGet_defaultCachePut_self]
      rw [h2, h1]
      exact ⟨rfl, rfl⟩
  · exact ⟨rfl, rfl, rfl, rfl, rfl, rfl⟩

/-- Witness for C6: the general part applied to Scenario A's concrete
system. -/
theorem c6_read_through_idempotent_witness :
    (nodeData scenarioAFS "a/b.txt".toList).1 =
      (nodeData ((nodeData scenarioAFS "a/b.txt".toList).2)
        "a/b.txt".toList).1 ∧
    ((nodeData ((nodeData scenarioAFS "a/b.txt".toList).2)
      "a/b.txt".toList).2).nfsContentReads =
      ((nodeData scenarioAFS "a/b.txt".toList).2).nfsContentReads :=
  c6_read_through_idempotent.1 scenarioAFS "a/b.txt".toList
    scenarioABytes 0o500 rfl

/-! ### Node read with every external-call outcome as a parameter (C1) -/

/-- Outcome of `n.stat()` in `fuseFSNode.data`. -/
inductive StatOutcome where
  | statFailed
  | okFile (mode : Nat)
  | okDir
  deriving Repr

/-- Outcome of `n.FS.ssdCache.Get`: a hit, `ErrNotFoundCache`, or any other
error. -/
inductive GetOutcome where
  | hit (d : Data)
  | errNotFound
  | errOther
  deriving DecidableEq, Repr

/-- Outcome of the `os.ReadFile` on the NFS path. -/
inductive NfsOutcome where
  | readOk (d : Data)
  | readFailed
  deriving DecidableEq, Repr

/-- Outcome of `n.FS.ssdCache.Put`: success, `ErrWontCache`, or any other
error. -/
inductive PutOutcome where
  | putOk
  | putRefused
  | putFailed
  deriving Repr

/-- Which external calls a run of `fuseFSNode.data` performed. -/
structure Trace where
  cacheGets : Nat
  nfsReads : Nat
  cachePuts : Nat
  deriving DecidableEq, Repr

/-- Embedding of `fuseFSNode.data` with the result of each external call
passed in, so that all its error paths are represented: stat errors
propagate; directories give EISDIR before any cache access; a cache hit
returns immediately; on `ErrNotFoundCache` or any other get error the NFS
read happens; an NFS read failure is EIO; otherwise the bytes are returned
and the cache put's outcome is only logged. -/
def dataWithOutcomes (stat : StatOutcome) (get : GetOutcome)
    (nfsRead : NfsOutcome) (_put : PutOutcome) : Except FuseErr Data × Trace :=
  match stat with
  | StatOutcome.statFailed => (Except.error FuseErr.statError, ⟨0, 0, 0⟩)
  | StatOutcome.okDir => (Except.error FuseErr.isDirectory, ⟨0, 0, 0⟩)
  | StatOutcome.okFile _ =>
    match get with
    | GetOutcome.hit d => (Except.ok d, ⟨1, 0, 0⟩)
    | GetOutcome.errNotFound | GetOutcome.errOther =>
      match nfsRead with
      | NfsOutcome.readFailed => (Except.error FuseErr.ioError, ⟨1, 1, 0⟩)
      | NfsOutcome.readOk d => (Except.ok d, ⟨1, 1, 1⟩)

/-- C1: for a node content read, (1) a cache Get error other than NotFound
behaves exactly like a NotFound miss and falls back to the backing store;
(2) when the backing-store read succeeds the read returns those bytes
whatever the cache Put outcome; (3) the request fails only on a
backing-store read failure, and then with an I/O error; (4) a directory
content read fails with an is-a-directory error with no cache access at
all. -/
theorem c1_read_fallback_protocol :
    (∀ (m : Nat) (nfsRead : NfsOutcome) (put : PutOutcome),
      dataWithOutcomes (StatOutcome.okFile m) GetOutcome.errOther nfsRead put =
        dataWithOutcomes (StatOutcome.okFile m) GetOutcome.errNotFound
          nfsRead put ∧
      (dataWithOutcomes (StatOutcome.okFile m) GetOutcome.errOther nfsRead
        put).2.nfsReads = 1) ∧
    (∀ (m : Nat) (g : GetOutcome) (d : Data) (put : PutOutcome),
      (∀ b, g ≠ GetOutcome.hit b) →
      (dataWithOutcomes (StatOutcome.okFile m) g (NfsOutcome.readOk d)
        put).1 = Except.ok d) ∧
    (∀ (m : Nat) (g : GetOutcome) (nfsRead : NfsOutcome) (put : PutOutcome)
        (e : FuseErr),
      (dataWithOutcomes (StatOutcome.okFile m) g nfsRead put).1 =
        Except.error e →
      nfsRead = NfsOutcome.readFailed ∧ e = FuseErr.ioError) ∧
    (∀ (g : GetOutcome) (nfsRead : NfsOutcome) (put : PutOutcome),
      dataWithOutcomes StatOutcome.okDir g nfsRead put =
        (Except.error FuseErr.isDirectory, ⟨0, 0, 0⟩)) := by
  refine ⟨?_, ?_, ?_, ?_⟩
  · intro m nfsRead put
    cases nfsRead <;> exact ⟨rfl, rfl⟩
  · intro m g d put h
    cases g with
    | hit b => exact absurd rfl (h b)
    | errNotFound => rfl
    | errOther => rfl
  · intro m g nfsRead put e h
    cases g <;> cases nfsRead <;>
      simp only [dataWithOutcomes] at h <;> cases h <;> exact ⟨rfl, rfl⟩
  · intro g nfsRead put
    rfl

/-- Witness for C1: a soft miss with a refused Put still returns the NFS
bytes, and a failed NFS read yields exactly an I/O error. -/
theorem c1_read_fallback_protocol_witness :
    (dataWithOutcomes (StatOutcome.okFile 0) GetOutcome.errOther
      (NfsOutcome.readOk [1]) PutOutcome.putRefused).1 = Except.ok [1] ∧
    (NfsOutcome.readFailed = NfsOutcome.readFailed ∧
      FuseErr.ioError = FuseErr.ioError) :=
  ⟨c1_read_fallback_protocol.2.1 0 GetOutcome.errOther [1]
      PutOutcome.putRefused (fun b h => by cases h),
    c1_read_fallback_protocol.2.2.1 0 GetOutcome.errNotFound
      NfsOutcome.readFailed PutOutcome.putOk FuseErr.ioError rfl⟩

/-! ### Node lookup-by-name (C8) -/

/-- The `fuseFSNode` tree as `Lookup` (node.go) sees it: the node's `Name`,
whether `Mode.IsDir()` holds, and the ordered `Children` list. -/
inductive FSNode where
  | mk (name : Path) (modeIsDir : Bool) (children : List FSNode)
  deriving Repr

/-- The `Name` field of a node. -/
def nodeName : FSNode → Path
  | FSNode.mk nm _ _ => nm

/-- The `Mode.IsDir()` test on a node. -/
def modeIsDir : FSNode → Bool
  | FSNode.mk _ b _ => b

/-- The `Children` list of a node. -/
def children : FSNode → List FSNode
  | FSNode.mk _ _ cs => cs

mutual

/-- Embedding of `fuseFSNode.Lookup` (node.go): scan the children in order;
a name match returns that child; before moving on, a directory child is
searched recursively and a hit there is returned immediately; exhausting the
loop is ENOENT (`none`). -/
def Lookup : FSNode → Path → Option FSNode
  | FSNode.mk _ _ cs, name => lookupChildren cs name

/-- The loop over the child list inside `fuseFSNode.Lookup`. -/
def lookupChildren : List FSNode → Path → Option FSNode
  | [], _ => none
  | c :: cs, name =>
    if nodeName c = name then some c
    else if modeIsDir c then
      match Lookup c name with
      | some r => some r
      | none => lookupChildren cs name
    else lookupChildren cs name

end

mutual

/-- All nodes `Lookup` can possibly return for a node: its children, and
recursively the reachable nodes of each directory child. -/
def reachable : FSNode → List FSNode
  | FSNode.mk _ _ cs => reachableChildren cs

/-- See `reachable`. -/
def reachableChildren : List FSNode → List FSNode
  | [] => []
  | c :: cs =>
    c :: ((if modeIsDir c then reachable c else []) ++ reachableChildren cs)

end

theorem lookupChildren_spec (cs : List FSNode) (name : Path) :
    (∀ r, lookupChildren cs name = some r →
        nodeName r = name ∧ r ∈ reachableChildren cs) ∧
    (lookupChildren cs name = none ↔
        ∀ r ∈ reachableChildren cs, nodeName r ≠ name) := by
  match cs with
  | [] =>
    constructor
    · intro r hr
      simp [lookupChildren] at hr
    · simp [lookupChildren, reachableChildren]
  | FSNode.mk cnm cb ccs :: cs' =>
    have iht := lookupChildren_spec cs' name
    have ihc := lookupChildren_spec ccs name
    have hL : Lookup (FSNode.mk cnm cb ccs) name = lookupChildren ccs name := by
      simp [Lookup]
    have hR : reachableChildren (FSNode.mk cnm cb ccs :: cs') =
        FSNode.mk cnm cb ccs ::
          ((if cb = true then reachableChildren ccs else []) ++
            reachableChildren cs') := by
      simp [reachableChildren, modeIsDir, reachable]
    constructor
    · intro r hr
      simp only [lookupChildren, nodeName, modeIsDir, hL] at hr
      rw [hR]
      by_cases hn : cnm = name
      · rw [if_pos hn] at hr
        injection hr with hr
        subst hr
        exact ⟨by simp [nodeName, hn], List.mem_cons_self _ _⟩
      · rw [if_neg hn] at hr
        by_cases hd : cb = true
        · rw [if_pos hd] at hr
          rw [if_pos hd]
          cases hLc : lookupChildren ccs name with
          | some r' =>
            simp only [hLc] at hr
            injection hr with hr
            subst hr
            have h2 := ihc.1 r' hLc
            exact ⟨h2.1,
              List.mem_cons_of_mem _ (List.mem_append_left _ h2.2)⟩
          | none =>
            simp only [hLc] at hr
            have h2 := iht.1 r hr
            exact ⟨h2.1,
              List.mem_cons_of_mem _ (List.mem_append_right _ h2.2)⟩
        · rw [if_neg hd] at hr
          rw [if_neg hd]
          have h2 := iht.1 r hr
          exact ⟨h2.1,
            List.mem_cons_of_mem _ (by simpa using (List.mem_append_right ([] : List FSNode) h2.2))⟩
    · simp only [lookupChildren, nodeName, modeIsDir, hL]
      rw [hR]
      by_cases hn : cnm = name
      · rw [if_pos hn]
        constructor
        · intro h0
          cases h0
        · intro hall
          exact absurd (show nodeName (FSNode.mk cnm cb ccs) = name by
              simp [nodeName, hn])
            (hall _ (List.mem_cons_self _ _))
      · rw [if_neg hn]
        by_cases hd : cb = true
        · rw [if_pos hd, if_pos hd]
          cases hLc : lookupChildren ccs name with
          | some r' =>
            simp only [hLc]
            constructor
            · intro h0
              cases h0
            · intro hall
              have h2 := ihc.1 r' hLc
              exact absurd h2.1
                (hall r'
                  (List.mem_cons_of_mem _ (List.mem_append_left _ h2.2)))
          | none =>
            simp only [hLc]
            rw [iht.2]
            have hccs := ihc.2.mp hLc
            constructor
            · intro hall r hmem
              rcases List.mem_cons.mp hmem with h | h
              · subst h
                simp only [nodeName]
                exact hn
              · rcases List.mem_append.mp h with h' | h'
                · exact hccs r h'
                · exact hall r h'
            · intro hall r hmem
              exact hall r
                (List.mem_cons_of_mem _ (List.mem_append_right _ hmem))
        · rw [if_neg hd, if_neg hd]
          rw [iht.2]
          constructor
          · intro hall r hmem
            rcases List.mem_cons.mp hmem with h | h
            · subst h
              simp only [nodeName]
              exact hn
            · exact hall r (by simpa using h)
          · intro hall r hmem
            exact hall r (List.mem_cons_of_mem _ (by simpa using hmem))

/-- A file node named `x`, child of directory `d`, child of the root. -/
def xFile : FSNode := FSNode.mk ['x'] false []
/-- See `xFile`. -/
def dDir : FSNode := FSNode.mk ['d'] true [xFile]
/-- See `xFile`. -/
def rootDir : FSNode := FSNode.mk [] true [dDir]

/-- Counterexample to C8 as stated: looking up `x` on the root, whose only
immediate child is the directory `d`, returns the node `x` that exists only
in the deeper subdirectory `d` — Lookup is not restricted to immediate
children and does not return not-found here. -/
theorem c8_counterexample_deep_resolution :
    Lookup rootDir ['x'] = some xFile ∧
    ['x'] ∉ (children rootDir).map nodeName := by
  constructor
  · simp +decide [Lookup, lookupChildren, nodeName, modeIsDir,
      rootDir, dDir, xFile]
  · simp +decide [children, nodeName, rootDir, dDir]

/-- C8 as amended: Lookup performs a pre-order search that is not restricted
to immediate children — any node it returns carries the requested name and
lies in the set reachable through directory children, and it returns
not-found exactly when no reachable node carries the name (so a name that
exists only in a deeper subdirectory is still resolved). -/
theorem c8_amended_lookup_preorder_search (n : FSNode) (name : Path) :
    (∀ r, Lookup n name = some r → nodeName r = name ∧ r ∈ reachable n) ∧
    (Lookup n name = none ↔ ∀ r ∈ reachable n, nodeName r ≠ name) := by
  cases n with
  | mk nm b cs =>
    simpa [Lookup, reachable] using lookupChildren_spec cs name

/-- Witness for the amended C8: the deep node `x` returned on the concrete
tree indeed carries the requested name and is reachable from the root. -/
theorem c8_amended_lookup_preorder_search_witness :
    nodeName xFile = ['x'] ∧ xFile ∈ reachable rootDir :=
  (c8_amended_lookup_preorder_search rootDir ['x']).1 xFile
    (by simp +decide [Lookup, lookupChildren, nodeName, modeIsDir,
      rootDir, dDir, xFile])

end FuseTest
